import Mathlib

/-!
Verification development for the rusEFI trigger-wheel synchronization
configuration engine (DeltonaHF/rusefi fork):

* `trigger_generalized.cpp` — generalized N-tooth trigger builder
  (`initializeGeneralizedTrigger`, `initialize4Plus1Generalized`);
* `trigger_4plus1.cpp` — fixed 4-regular+1-sync crank builder
  (`initialize4Plus1`);
* `trigger_4plus2.cpp` — fixed 4-crank+2-cam dual-wheel builder
  (`initialize4Plus2`).

Angles are embedded as exact rationals (the C code uses `float`; none of
the properties below hinge on rounding).  The external `TriggerWaveform`
collaborator is modelled as an explicit record of every configuration
call the builders make (teeth added, sync windows set, TDC assignment,
error reporting).  `TriggerWaveform::getCycleDuration()` lives outside
this repository, so the cycle duration is threaded through every builder
as an explicit parameter.

The C `while` loops used for angle wrapping are embedded as
fuel-indexed structural recursions; each call site supplies fuel that is
provably sufficient (see `loopAdd_pos` etc.), so for every input the
embedded loop runs exactly as the C loop does.
-/

namespace RusefiTrigger

/-- Embeds `while (a <= 0) a += c;` with explicit fuel. -/
def loopAdd (c : ℚ) : ℕ → ℚ → ℚ
  | 0, a => a
  | n + 1, a => if a ≤ 0 then loopAdd c n (a + c) else a

/-- Embeds `while (a > c) a -= c;` with explicit fuel. -/
def loopSub (c : ℚ) : ℕ → ℚ → ℚ
  | 0, a => a
  | n + 1, a => if c < a then loopSub c n (a - c) else a

/-- Embeds `while (a < c) a += c;` (the second TDC wrap loop) with explicit fuel. -/
def loopAddLt (c : ℚ) : ℕ → ℚ → ℚ
  | 0, a => a
  | n + 1, a => if a < c then loopAddLt c n (a + c) else a

/-- `normalizeAngle` from `trigger_generalized.cpp` lines 46-53: reduce an
angle into `(0, cycleDuration]` by repeated addition then subtraction of
the cycle duration.  The fuel supplied to each loop is provably enough
for the loop to reach its exit condition whenever `0 < c`. -/
def normalizeAngle (c a : ℚ) : ℚ :=
  let b := loopAdd c (((0 - a) / c).num.toNat + 1) a
  loopSub c (((b - c) / c).num.toNat + 1) b

/-- Edge polarity of a recorded `addEvent720` call. -/
inductive TrigValue
  | rise
  | fall
  deriving DecidableEq, Repr

/-- Wheel a recorded `addEvent720` call targets. -/
inductive TrigWheel
  | primary
  | secondary
  deriving DecidableEq, Repr

/-- Model of the external `TriggerWaveform` collaborator: a record of the
configuration calls a builder has made.  `tdcPosition` and the three
policy flags are `Option`s so that "never assigned" is observable. -/
structure TrigState where
  cycleDuration : ℚ
  shapeDefinitionError : Bool
  errorReported : Bool
  toothRises : List (ℚ × ℚ)
  events720 : List (ℚ × TrigValue × TrigWheel)
  gap3Windows : List (ℕ × ℚ × ℚ)
  syncGapSingle : Option ℚ
  tdcPosition : Option ℚ
  needSecondTriggerInput : Option Bool
  useOnlyPrimaryForSync : Option Bool
  isSynchronizationNeeded : Option Bool
  deriving DecidableEq, Repr

/-- State right after `s->initialize(...)`: cycle duration supplied by the
collaborator, nothing configured yet. -/
def initState (c : ℚ) : TrigState :=
  { cycleDuration := c
    shapeDefinitionError := false
    errorReported := false
    toothRises := []
    events720 := []
    gap3Windows := []
    syncGapSingle := none
    tdcPosition := none
    needSecondTriggerInput := none
    useOnlyPrimaryForSync := none
    isSynchronizationNeeded := none }

/-- Effect of `firmwareError(...)` followed by `setShapeDefinitionError(true)`. -/
def mkError (s : TrigState) : TrigState :=
  { s with errorReported := true, shapeDefinitionError := true }

/-- Lines 92-97 of `trigger_generalized.cpp`: normalize every raw tooth
angle and sort ascending (`qsort` with `compareFloat`). -/
def normalizedSorted (c : ℚ) (toothAngles : List ℚ) : List ℚ :=
  List.insertionSort (· ≤ ·) (toothAngles.map (normalizeAngle c))

/-- Line 100: `lastTeethFullTurnOffset = cycleDuration - sortedAngles[numTeeth-1]`. -/
def lastTeethFullTurnOffset (c : ℚ) (toothAngles : List ℚ) : ℚ :=
  c - (normalizedSorted c toothAngles).getLastD 0

/-- Lines 101-104: shift every sorted angle so the last tooth lands exactly
on `cycleDuration`. -/
def shiftedAngles (c : ℚ) (toothAngles : List ℚ) : List ℚ :=
  (normalizedSorted c toothAngles).map (· + lastTeethFullTurnOffset c toothAngles)

/-- Lines 123-128: `gap[0]` is the wraparound gap
`cycleDuration - sortedAngles[numTeeth-1] + sortedAngles[0]`, and
`gap[i] = sortedAngles[i] - sortedAngles[i-1]` for `i ≥ 1`. -/
def gapsOf (c : ℚ) (a : List ℚ) : List ℚ :=
  match a with
  | [] => []
  | x :: rest => (c - (x :: rest).getLastD 0 + x) :: List.zipWith (fun p q => p - q) rest (x :: rest)

/-- Lines 131-134: `ratio[i] = gap[i] / gap[prevIdx]` with
`prevIdx = (i == 0) ? numTeeth - 1 : i - 1`. -/
def ratioAt (gaps : List ℚ) (i : ℕ) : ℚ :=
  gaps.getD i 0 / gaps.getD (if i = 0 then gaps.length - 1 else i - 1) 0

/-- Line 135: a gap is unusual when its ratio is `≤ MIN_GAP_RATIO` (0.5)
or `≥ MAX_GAP_RATIO` (2.0). -/
def isUnusualGap (gaps : List ℚ) (i : ℕ) : Bool :=
  ratioAt gaps i ≤ 1 / 2 || 2 ≤ ratioAt gaps i

/-- Lines 131-141: indices of unusual gaps, collected in increasing order. -/
def unusualIndices (gaps : List ℚ) : List ℕ :=
  (List.range gaps.length).filter (fun i => isUnusualGap gaps i)

/-- Outcome of the sync-gap selection logic in `initializeGeneralizedTrigger`. -/
inductive SyncChoice
  | consec (gapIdx1 gapIdx2 : ℕ)
  | nonconsec (gapIdx1 gapIdx2 : ℕ)
  | single (syncGapIdx : ℕ)
  deriving DecidableEq, Repr

/-- Lines 165-175: scan adjacent pairs of `unusualIndices` for the first
`i` with `unusualIndices[i+1] == (unusualIndices[i] + 1) % numTeeth`. -/
def findConsecAux (numTeeth : ℕ) : List ℕ → Option (ℕ × ℕ)
  | u :: v :: rest =>
    if v = (u + 1) % numTeeth then some (u, v) else findConsecAux numTeeth (v :: rest)
  | _ => none

/-- Lines 259-274: among the unusual gaps, pick the one whose ratio
deviates furthest from 1.0, using `max(ratio, 1/ratio)` as the deviation
and a strict `>` update starting from deviation 0 and index `u[0]`. -/
def pickMostUnusual (gaps : List ℚ) (u : List ℕ) : ℕ :=
  (u.foldl
    (fun (acc : ℚ × ℕ) i =>
      let dev := if 1 < ratioAt gaps i then ratioAt gaps i else 1 / ratioAt gaps i
      if acc.1 < dev then (dev, i) else acc)
    (0, u.headD 0)).2

/-- Lines 164-195 and 257-279: sync strategy selection in strict priority
order — first adjacent unusual pair (scan, then the wraparound check of
last-to-first), then the first two unusual gaps as a non-adjacent pair,
otherwise the single most deviant unusual gap. -/
def selectSync (numTeeth : ℕ) (gaps : List ℚ) (u : List ℕ) : SyncChoice :=
  match findConsecAux numTeeth u with
  | some (i1, i2) => .consec i1 i2
  | none =>
    if 2 ≤ u.length then
      if u.headD 0 = (u.getLastD 0 + 1) % numTeeth then
        .consec (u.getLastD 0) (u.headD 0)
      else
        .nonconsec (u.headD 0) (u.getD 1 0)
    else
      .single (pickMostUnusual gaps u)

/-- Lines 217-287: the windows passed to `setTriggerSynchronizationGap3`
(in call order), the ratio passed to `setTriggerSynchronizationGap` (if
any), and `firstSyncGapIdx`.  The two-gap branch handles the wraparound
case (`gapIdx2 < gapIdx1`) with second index `numTeeth - gapIdx1`, and
the normal case with second index `gapIdx2 - gapIdx1`; each window is
`[ratio * 0.66, ratio * 1.5]`. -/
def configWindows (numTeeth : ℕ) (gaps : List ℚ) :
    SyncChoice → List (ℕ × ℚ × ℚ) × Option ℚ × ℕ
  | .consec i1 i2 | .nonconsec i1 i2 =>
    if i2 < i1 then
      ([(0, ratioAt gaps i2 * (33 / 50), ratioAt gaps i2 * (3 / 2)),
        (numTeeth - i1, ratioAt gaps i1 * (33 / 50), ratioAt gaps i1 * (3 / 2))],
       none, i2)
    else
      ([(0, ratioAt gaps i2 * (33 / 50), ratioAt gaps i2 * (3 / 2)),
        (i2 - i1, ratioAt gaps i1 * (33 / 50), ratioAt gaps i1 * (3 / 2))],
       none, i2)
  | .single i => ([], some (ratioAt gaps i), i)

/-- Lines 290-294: `tdcPosition = cycleDuration - (angle - offset)`
followed by the two wrap loops exactly as written in the source —
`while (tdcPosition > cycleDuration) tdcPosition -= cycleDuration;`
then `while (tdcPosition < cycleDuration) tdcPosition += cycleDuration;`. -/
def tdcWrap (c t : ℚ) : ℚ :=
  let t1 := loopSub c (((t - c) / c).num.toNat + 1) t
  loopAddLt c (((c - t1) / c).num.toNat + 1) t1

/-- `initializeGeneralizedTrigger` from `trigger_generalized.cpp`: validate
the tooth count, normalize/sort/shift the angles, add the teeth, analyse
gaps, select and configure the synchronization, and set the TDC
position.  `c` is the collaborator's cycle duration (the code queries
`s->getCycleDuration()` after `s->initialize(FOUR_STROKE_CRANK_SENSOR,
SyncEdge::RiseOnly)`; that query is outside this repository). -/
def initializeGeneralizedTrigger (c : ℚ) (toothAngles : List ℚ) (toothWidth : ℚ) :
    TrigState :=
  if toothAngles.length = 0 then mkError (initState c)
  else if 60 < toothAngles.length then mkError (initState c)
  else
    let shifted := shiftedAngles c toothAngles
    let sTeeth : TrigState :=
      { initState c with toothRises := shifted.map (fun a => (a, toothWidth)) }
    let gaps := gapsOf c shifted
    let u := unusualIndices gaps
    if u.isEmpty then mkError sTeeth
    else
      let cfg := configWindows toothAngles.length gaps (selectSync toothAngles.length gaps u)
      { sTeeth with
        gap3Windows := cfg.1
        syncGapSingle := cfg.2.1
        tdcPosition :=
          some (tdcWrap c
            (c - (shifted.getD cfg.2.2 0 - lastTeethFullTurnOffset c toothAngles))) }

/-- `initialize4Plus1Generalized` from `trigger_generalized.cpp` lines
309-381 (non-unit-test behavior): reject a zero offset, otherwise build
the five tooth angles for the positive (Tipo/Tempra) or negative (Thema)
pattern and hand them to `initializeGeneralizedTrigger` with tooth
width 3. -/
def initialize4Plus1Generalized (c : ℚ) (syncToothOffset : ℤ) : TrigState :=
  if syncToothOffset = 0 then mkError (initState c)
  else if 0 < syncToothOffset then
    let o : ℚ := (syncToothOffset : ℚ)
    initializeGeneralizedTrigger c
      [0, 90 - o, 90 + (90 - o), 2 * 90 + (90 - o), 3 * 90 + (90 - o)] 3
  else
    let o : ℚ := (-syncToothOffset : ℤ)
    initializeGeneralizedTrigger c [0, o, 90 + o, 2 * 90 + o, 3 * 90 + o] 3

/-- Lines 78-89 of `trigger_4plus1.cpp`: the tooth loop.  For
`i = 1..NUM_REGULAR_TEETH` the sync tooth is inserted before regular
tooth `i` when `SYNC_TOOTH_ANGLE` falls strictly inside the interval
`((i-1)*REGULAR_TOOTH_ANGLE, i*REGULAR_TOOTH_ANGLE)`, then the regular
tooth at `i*REGULAR_TOOTH_ANGLE` is added; every tooth has width 3. -/
def fourPlus1Teeth (regular syncToothAngle : ℕ) (w : ℚ) : List (ℚ × ℚ) :=
  ((List.range 4).map (fun i0 =>
    let i := i0 + 1
    let curr := i * regular
    (if syncToothAngle < curr ∧ (i - 1) * regular < syncToothAngle
      then [((syncToothAngle : ℚ), w)] else [])
      ++ [((curr : ℚ), w)])).flatten

/-- `initialize4Plus1` from `trigger_4plus1.cpp`.  `c` is the collaborator's
cycle duration as the code's `(unsigned)` cast sees it.  The sync tooth
offset is the compile-time constant `SYNC_TOOTH_OFFSET = 5`, so only the
positive-offset (Tipo/Tempra) branch of lines 94-123 is live; the
negative-offset (Thema) branch of lines 124-144 is dead code and is not
reachable from this definition, exactly as in the source. -/
def initialize4Plus1 (c : ℕ) : TrigState :=
  let s0 := initState (c : ℚ)
  if c % 4 ≠ 0 then mkError s0
  else
    let regular := c / 4
    let syncToothOffset : ℕ := 5
    if regular / 2 ≤ syncToothOffset then mkError s0
    else
      let syncToothAngle := 2 * regular + syncToothOffset
      let shortGap := syncToothOffset
      let longGap := regular - syncToothOffset
      let sTeeth := { s0 with toothRises := fourPlus1Teeth regular syncToothAngle 3 }
      if (3 : ℚ) * shortGap < (longGap : ℚ) then
        { sTeeth with
          gap3Windows :=
            [(0, (longGap : ℚ) / shortGap * (33 / 50), (longGap : ℚ) / shortGap * (3 / 2)),
             (1, (shortGap : ℚ) / regular * (33 / 50), (shortGap : ℚ) / regular * (3 / 2))]
          tdcPosition := some ((c : ℚ) - regular + syncToothOffset) }
      else
        let tdcPositionOffset : ℤ := (syncToothOffset : ℤ) - regular
        { sTeeth with
          gap3Windows :=
            [(0, (shortGap : ℚ) / regular * (33 / 50), (shortGap : ℚ) / regular * (3 / 2))]
          tdcPosition := some ((c : ℚ) - regular + syncToothOffset - tdcPositionOffset) }

/-- `_4PLUS2_CAM_PULSE` from `trigger_4plus2.cpp`: a rise at
`camToothAngle*idx + offset - toothWidth` and a fall at
`camToothAngle*idx + offset` on the primary wheel. -/
def fourPlus2CamPulse (idx offset camToothAngle toothWidth : ℕ) :
    List (ℚ × TrigValue × TrigWheel) :=
  [(((camToothAngle * idx + offset - toothWidth : ℕ) : ℚ), .rise, .primary),
   (((camToothAngle * idx + offset : ℕ) : ℚ), .fall, .primary)]

/-- `_4PLUS2_CRANK_PULSE` from `trigger_4plus2.cpp`: a rise at
`crankToothAngle*idx - toothWidth` and a fall at `crankToothAngle*idx`
on the secondary wheel. -/
def fourPlus2CrankPulse (idx crankToothAngle toothWidth : ℕ) :
    List (ℚ × TrigValue × TrigWheel) :=
  [(((crankToothAngle * idx - toothWidth : ℕ) : ℚ), .rise, .secondary),
   (((crankToothAngle * idx : ℕ) : ℚ), .fall, .secondary)]

/-- `initialize4Plus2` from `trigger_4plus2.cpp`: cam offsets 50 and 230,
`crankToothAngle = (cycleDuration/2)/4`, `tdcPosition = 720 - camOffset2`,
both-wheel requirement flags, the event sequence cam0, crank1-2, cam1,
crank3-8, and the two fast-sync windows `[0.25, 0.75]` and `[1.5, 3.5]`.
`c` is the collaborator's cycle duration (the code initializes with
`FOUR_STROKE_CAM_SENSOR`). -/
def initialize4Plus2 (c : ℕ) : TrigState :=
  let camOffset1 := 50
  let camOffset2 := camOffset1 + 180
  let crankToothAngle := c / 2 / 4
  let camToothAngle := 180
  let toothWidth := 5
  { initState (c : ℚ) with
    tdcPosition := some (((720 - camOffset2 : ℕ) : ℚ))
    needSecondTriggerInput := some true
    useOnlyPrimaryForSync := some false
    isSynchronizationNeeded := some false
    events720 :=
      fourPlus2CamPulse 0 camOffset1 camToothAngle toothWidth
        ++ ((List.range 2).map
            (fun i => fourPlus2CrankPulse (i + 1) crankToothAngle toothWidth)).flatten
        ++ fourPlus2CamPulse 1 camOffset1 camToothAngle toothWidth
        ++ ((List.range 6).map
            (fun i => fourPlus2CrankPulse (i + 3) crankToothAngle toothWidth)).flatten
    gap3Windows := [(0, 1 / 4, 3 / 4), (1, 3 / 2, 7 / 2)] }

/-- Spec-side description (§4.5, positive offset) of the windows the
Tipo/Tempra branch of `initialize4Plus1` is expected to configure for a
given regular pitch: a two-gap configuration (long-after-short primary
window plus short-vs-regular confirmation window) when the long gap
exceeds three times the short gap, otherwise the single fallback
confirmation window. -/
def fourPlus1PositiveWindows (regular : ℕ) : List (ℕ × ℚ × ℚ) :=
  if (3 : ℚ) * ((5 : ℕ) : ℚ) < ((regular - 5 : ℕ) : ℚ) then
    [(0, ((regular - 5 : ℕ) : ℚ) / ((5 : ℕ) : ℚ) * (33 / 50),
        ((regular - 5 : ℕ) : ℚ) / ((5 : ℕ) : ℚ) * (3 / 2)),
     (1, ((5 : ℕ) : ℚ) / (regular : ℚ) * (33 / 50),
        ((5 : ℕ) : ℚ) / (regular : ℚ) * (3 / 2))]
  else
    [(0, ((5 : ℕ) : ℚ) / (regular : ℚ) * (33 / 50),
        ((5 : ℕ) : ℚ) / (regular : ℚ) * (3 / 2))]

/-- The spec's notion of a normalized tooth sequence (§4.1/§8 ordering
invariant): nonempty, strictly increasing, contained in
`(0, cycleDuration]`, with the final tooth exactly at `cycleDuration`. -/
def isNormalizedSeq (c : ℚ) (a : List ℚ) : Prop :=
  a ≠ [] ∧ a.Chain' (· < ·) ∧ (∀ x ∈ a, 0 < x ∧ x ≤ c) ∧ a.getLastD 0 = c

/-- Two raw angles are congruent modulo the cycle duration: they denote
the same physical tooth position. -/
def sameAngleModC (c x y : ℚ) : Prop :=
  ∃ k : ℤ, x - y = k * c

/-- A 60-tooth wheel with one displaced tooth (59 teeth at 6° pitch plus
one at 357°), used to exercise the `numTeeth = 60` boundary. -/
def sixtyToothWheel : List ℚ :=
  ((List.range 59).map (fun k => ((6 * (k + 1) : ℕ) : ℚ))) ++ [357]

/-! ### Helper lemmas about the loop embeddings -/

theorem loopAdd_sub_int (c : ℚ) : ∀ (n : ℕ) (a : ℚ), ∃ k : ℤ, loopAdd c n a = a + k * c := by
  intro n
  induction n with
  | zero => intro a; exact ⟨0, by simp [loopAdd]⟩
  | succ n ih =>
    intro a
    by_cases h : a ≤ 0
    · obtain ⟨k, hk⟩ := ih (a + c)
      exact ⟨k + 1, by simp [loopAdd, h, hk]; ring⟩
    · exact ⟨0, by simp [loopAdd, h]⟩

theorem loopSub_sub_int (c : ℚ) : ∀ (n : ℕ) (a : ℚ), ∃ k : ℤ, loopSub c n a = a + k * c := by
  intro n
  induction n with
  | zero => intro a; exact ⟨0, by simp [loopSub]⟩
  | succ n ih =>
    intro a
    by_cases h : c < a
    · obtain ⟨k, hk⟩ := ih (a - c)
      exact ⟨k - 1, by simp [loopSub, h, hk]; ring⟩
    · exact ⟨0, by simp [loopSub, h]⟩

theorem loopAdd_pos (c : ℚ) (hc : 0 < c) :
    ∀ (n : ℕ) (a : ℚ), 0 < a + n * c → 0 < loopAdd c n a := by
  intro n
  induction n with
  | zero => intro a h; simpa [loopAdd] using h
  | succ n ih =>
    intro a h
    by_cases ha : a ≤ 0
    · simp only [loopAdd, ha, if_true]
      exact ih (a + c) (by push_cast at h ⊢; linarith)
    · simpa [loopAdd, ha] using lt_of_not_le ha

theorem loopSub_le (c : ℚ) (hc : 0 < c) :
    ∀ (n : ℕ) (a : ℚ), a ≤ c + n * c → loopSub c n a ≤ c := by
  intro n
  induction n with
  | zero => intro a h; simpa [loopSub] using h
  | succ n ih =>
    intro a h
    by_cases ha : c < a
    · simp only [loopSub, ha, if_true]
      exact ih (a - c) (by push_cast at h ⊢; linarith)
    · simpa [loopSub, ha] using le_of_not_lt ha

theorem loopSub_pos (c : ℚ) (hc : 0 < c) :
    ∀ (n : ℕ) (a : ℚ), 0 < a → 0 < loopSub c n a := by
  intro n
  induction n with
  | zero => intro a h; simpa [loopSub] using h
  | succ n ih =>
    intro a h
    by_cases ha : c < a
    · simp only [loopSub, ha, if_true]
      exact ih (a - c) (by linarith)
    · simpa [loopSub, ha] using h

theorem rat_le_num_toNat (q : ℚ) : q ≤ (q.num.toNat : ℚ) := by
  rcases le_or_lt 0 q.num with h | h
  · have hq : q ≤ (q.num : ℚ) := by
      conv_lhs => rw [← Rat.num_div_den q]
      apply div_le_self
      · exact_mod_cast h
      · exact_mod_cast q.pos
    calc q ≤ (q.num : ℚ) := hq
      _ ≤ (q.num.toNat : ℚ) := by exact_mod_cast Int.self_le_toNat q.num
  · have hq : q < 0 := by
      rw [← Rat.num_div_den q]
      apply div_neg_of_neg_of_pos
      · exact_mod_cast h
      · exact_mod_cast q.pos
    have hnn : (0 : ℚ) ≤ (q.num.toNat : ℚ) := by positivity
    linarith

theorem normalizeAngle_pos_le (c : ℚ) (hc : 0 < c) (a : ℚ) :
    0 < normalizeAngle c a ∧ normalizeAngle c a ≤ c := by
  unfold normalizeAngle
  set n1 : ℕ := ((0 - a) / c).num.toNat + 1 with hn1
  have hfuel1 : 0 < a + n1 * c := by
    have h3 : (0 - a) / c ≤ ((((0 - a) / c).num.toNat : ℕ) : ℚ) := rat_le_num_toNat _
    have h4 : 0 - a ≤ ((((0 - a) / c).num.toNat : ℕ) : ℚ) * c := by
      have := mul_le_mul_of_nonneg_right h3 (le_of_lt hc)
      rwa [div_mul_cancel₀ _ (ne_of_gt hc)] at this
    have hexp : (n1 : ℚ) * c = ((((0 - a) / c).num.toNat : ℕ) : ℚ) * c + c := by
      rw [hn1]; push_cast; ring
    rw [hexp]; linarith
  have hb_pos : 0 < loopAdd c n1 a := loopAdd_pos c hc n1 a hfuel1
  set b : ℚ := loopAdd c n1 a with hb
  set n2 : ℕ := ((b - c) / c).num.toNat + 1 with hn2
  have hfuel2 : b ≤ c + n2 * c := by
    have h3 : (b - c) / c ≤ ((((b - c) / c).num.toNat : ℕ) : ℚ) := rat_le_num_toNat _
    have h4 : b - c ≤ ((((b - c) / c).num.toNat : ℕ) : ℚ) * c := by
      have := mul_le_mul_of_nonneg_right h3 (le_of_lt hc)
      rwa [div_mul_cancel₀ _ (ne_of_gt hc)] at this
    have hexp : (n2 : ℚ) * c = ((((b - c) / c).num.toNat : ℕ) : ℚ) * c + c := by
      rw [hn2]; push_cast; ring
    rw [hexp]; linarith
  exact ⟨loopSub_pos c hc n2 b hb_pos, loopSub_le c hc n2 b hfuel2⟩

theorem normalizeAngle_sub_int (c a : ℚ) : ∃ k : ℤ, normalizeAngle c a = a + k * c := by
  unfold normalizeAngle
  obtain ⟨k1, hk1⟩ := loopAdd_sub_int c (((0 - a) / c).num.toNat + 1) a
  obtain ⟨k2, hk2⟩ :=
    loopSub_sub_int c
      (((loopAdd c (((0 - a) / c).num.toNat + 1) a - c) / c).num.toNat + 1)
      (loopAdd c (((0 - a) / c).num.toNat + 1) a)
  refine ⟨k1 + k2, ?_⟩
  rw [hk2, hk1]
  push_cast
  ring

/-! ### Helper lemmas about lists -/

theorem mem_getLastD {α : Type} : ∀ (l : List α), l ≠ [] → ∀ d : α, l.getLastD d ∈ l := by
  intro l
  induction l with
  | nil => intro h; exact absurd rfl h
  | cons a rest ih =>
    intro _ d
    cases rest with
    | nil => simp [List.getLastD]
    | cons b r =>
      rw [List.getLastD_cons]
      exact List.mem_cons_of_mem a (ih (by simp) a)

theorem sorted_le_getLastD : ∀ (l : List ℚ), l.Sorted (· ≤ ·) →
    ∀ x ∈ l, ∀ d : ℚ, x ≤ l.getLastD d := by
  intro l
  induction l with
  | nil => intro _ x hx; exact absurd hx (by simp)
  | cons a rest ih =>
    intro hs x hx d
    rw [List.sorted_cons] at hs
    cases rest with
    | nil => simp at hx; simp [List.getLastD, hx]
    | cons b r =>
      rw [List.getLastD_cons]
      rcases List.mem_cons.mp hx with hxa | hxr
      · subst hxa
        exact le_trans (hs.1 _ (mem_getLastD (b :: r) (by simp) x))
          (le_refl _)
      · exact ih hs.2 x hxr a

theorem getLastD_map_add_general : ∀ (l : List ℚ) (t d : ℚ),
    (l.map (· + t)).getLastD (d + t) = l.getLastD d + t := by
  intro l
  induction l with
  | nil => intro t d; simp [List.getLastD]
  | cons a rest ih =>
    intro t d
    rw [List.map_cons, List.getLastD_cons, List.getLastD_cons]
    exact ih t a

theorem getLastD_map_add (l : List ℚ) (t : ℚ) (h : l ≠ []) :
    (l.map (· + t)).getLastD 0 = l.getLastD 0 + t := by
  cases l with
  | nil => exact absurd rfl h
  | cons a rest =>
    rw [List.map_cons, List.getLastD_cons, List.getLastD_cons]
    exact getLastD_map_add_general rest t a

theorem diffs_sum : ∀ (rest : List ℚ) (x : ℚ),
    (List.zipWith (fun p q => p - q) rest (x :: rest)).sum = (x :: rest).getLastD 0 - x := by
  intro rest
  induction rest with
  | nil => intro x; simp [List.getLastD]
  | cons y r ih =>
    intro x
    simp only [List.zipWith, List.sum_cons, List.getLastD_cons]
    have := ih y
    rw [List.getLastD_cons] at this
    rw [this]
    ring

theorem diffs_pos : ∀ (rest : List ℚ) (x : ℚ), (x :: rest).Chain' (· < ·) →
    ∀ g ∈ List.zipWith (fun p q => p - q) rest (x :: rest), 0 < g := by
  intro rest
  induction rest with
  | nil => intro x _ g hg; simp at hg
  | cons y r ih =>
    intro x hch g hg
    rw [List.chain'_cons] at hch
    simp only [List.zipWith, List.mem_cons] at hg
    rcases hg with hg | hg
    · subst hg; linarith [hch.1]
    · exact ih y hch.2 g hg

theorem findConsecAux_eq_some {N : ℕ} : ∀ {l : List ℕ} {a b : ℕ},
    findConsecAux N l = some (a, b) → b = (a + 1) % N ∧ [a, b].Sublist l := by
  intro l
  induction l with
  | nil => intro a b h; simp [findConsecAux] at h
  | cons u rest ih =>
    intro a b h
    cases rest with
    | nil => simp [findConsecAux] at h
    | cons v r =>
      have hunf : findConsecAux N (u :: v :: r) =
          if v = (u + 1) % N then some (u, v) else findConsecAux N (v :: r) := rfl
      rw [hunf] at h
      by_cases hv : v = (u + 1) % N
      · rw [if_pos hv, Option.some.injEq, Prod.mk.injEq] at h
        obtain ⟨ha, hb⟩ := h
        rw [← ha, ← hb]
        exact ⟨hv, List.Sublist.cons₂ u (List.Sublist.cons₂ v (List.nil_sublist r))⟩
      · rw [if_neg hv] at h
        obtain ⟨h1, h2⟩ := ih h
        exact ⟨h1, h2.trans (List.sublist_cons_self u (v :: r))⟩

theorem headD_ne_getLastD {l : List ℕ} (hnd : l.Nodup) (h2 : 2 ≤ l.length) :
    l.headD 0 ≠ l.getLastD 0 := by
  cases l with
  | nil => simp at h2
  | cons a rest =>
    cases rest with
    | nil => simp at h2
    | cons b r =>
      rw [List.headD_cons, List.getLastD_cons]
      intro hcontra
      have hmem : (b :: r).getLastD a ∈ b :: r := mem_getLastD (b :: r) (by simp) a
      rw [← hcontra] at hmem
      rw [List.nodup_cons] at hnd
      exact hnd.1 hmem

theorem selectSync_consec {N : ℕ} {gaps : List ℚ} {u : List ℕ} {i1 i2 : ℕ}
    (hN : ∀ j ∈ u, j < N) (hnd : u.Nodup)
    (hsel : selectSync N gaps u = .consec i1 i2) :
    i2 = (i1 + 1) % N ∧ i1 < N ∧ i1 ≠ i2 := by
  unfold selectSync at hsel
  cases hfc : findConsecAux N u with
  | some p =>
    obtain ⟨a, b⟩ := p
    rw [hfc] at hsel
    have hsel' : SyncChoice.consec a b = SyncChoice.consec i1 i2 := hsel
    rw [SyncChoice.consec.injEq] at hsel'
    obtain ⟨ha, hb⟩ := hsel'
    obtain ⟨hmod, hsub⟩ := findConsecAux_eq_some hfc
    have hmem1 : a ∈ u := hsub.subset (by simp)
    have hne : a ≠ b := by
      have hnd2 : ([a, b] : List ℕ).Nodup := hsub.nodup hnd
      simp only [List.nodup_cons, List.mem_singleton] at hnd2
      exact hnd2.1
    rw [← ha, ← hb]
    exact ⟨hmod, hN a hmem1, hne⟩
  | none =>
    rw [hfc] at hsel
    have hsel' :
        (if 2 ≤ u.length then
          if u.headD 0 = (u.getLastD 0 + 1) % N then
            SyncChoice.consec (u.getLastD 0) (u.headD 0)
          else
            SyncChoice.nonconsec (u.headD 0) (u.getD 1 0)
        else
          SyncChoice.single (pickMostUnusual gaps u)) = SyncChoice.consec i1 i2 := hsel
    by_cases hlen : 2 ≤ u.length
    · rw [if_pos hlen] at hsel'
      by_cases hwrap : u.headD 0 = (u.getLastD 0 + 1) % N
      · rw [if_pos hwrap, SyncChoice.consec.injEq] at hsel'
        obtain ⟨ha, hb⟩ := hsel'
        have hne0 : u ≠ [] := by
          intro h; rw [h] at hlen; simp at hlen
        have hmem1 : u.getLastD 0 ∈ u := mem_getLastD u hne0 0
        rw [← ha, ← hb]
        exact ⟨hwrap, hN _ hmem1, (headD_ne_getLastD hnd hlen).symm⟩
      · rw [if_neg hwrap] at hsel'
        exact absurd hsel' (by simp)
    · rw [if_neg hlen] at hsel'
      exact absurd hsel' (by simp)

theorem consec_offset_one {N i1 i2 : ℕ} (hmod : i2 = (i1 + 1) % N) (hlt : i1 < N)
    (hne : i1 ≠ i2) : (if i2 < i1 then N - i1 else i2 - i1) = 1 := by
  rcases Nat.lt_or_ge (i1 + 1) N with h | h
  · rw [Nat.mod_eq_of_lt h] at hmod
    have hnot : ¬ i2 < i1 := by omega
    rw [if_neg hnot]
    omega
  · have hNeq : i1 + 1 = N := by omega
    rw [← hNeq, Nat.mod_self] at hmod
    have hpos : i2 < i1 := by omega
    rw [if_pos hpos]
    omega

theorem length_shiftedAngles (c : ℚ) (angles : List ℚ) :
    (shiftedAngles c angles).length = angles.length := by
  simp [shiftedAngles, normalizedSorted, List.length_insertionSort]

theorem length_gapsOf (c : ℚ) : ∀ (a : List ℚ), (gapsOf c a).length = a.length := by
  intro a
  cases a with
  | nil => simp [gapsOf]
  | cons x rest => simp [gapsOf]

theorem mem_unusualIndices_lt {gaps : List ℚ} {j : ℕ} (h : j ∈ unusualIndices gaps) :
    j < gaps.length := by
  unfold unusualIndices at h
  exact List.mem_range.mp (List.mem_of_mem_filter h)

theorem nodup_unusualIndices (gaps : List ℚ) : (unusualIndices gaps).Nodup :=
  (List.nodup_range _).filter _

theorem normalizeAngle_inj_of_not_same {c x y : ℚ} (h : ¬ sameAngleModC c x y) :
    normalizeAngle c x ≠ normalizeAngle c y := by
  intro heq
  apply h
  obtain ⟨k1, hk1⟩ := normalizeAngle_sub_int c x
  obtain ⟨k2, hk2⟩ := normalizeAngle_sub_int c y
  refine ⟨k2 - k1, ?_⟩
  rw [hk1, hk2] at heq
  push_cast
  linarith

/-! ### Claim theorems

The arithmetic of `ℚ` in Batteries marks `Rat.add`, `Rat.sub`, `Rat.mul`
and `Rat.inv` irreducible; they are unsealed here so that `decide` can
evaluate the embedded builders on concrete wheels. -/

unseal Rat.sub Rat.add Rat.mul Rat.inv

/-- C6 (counterexample): the claim allows arbitrary real inputs, but two
distinct raw angles that are congruent modulo the cycle duration (here
10° and 370° over a 360° cycle) normalize to the same angle, so the
produced sequence `[360, 360]` is not strictly increasing and has a
duplicate. -/
theorem c6_normalization_cex :
    (10 : ℚ) ≠ 370 ∧
    shiftedAngles 360 [10, 370] = [360, 360] ∧
    ¬ List.Chain' (· < ·) (shiftedAngles 360 [10, 370]) := by
  refine ⟨by norm_num, by decide, ?_⟩
  intro h
  have : shiftedAngles 360 [10, 370] = [360, 360] := by decide
  rw [this] at h
  rw [List.chain'_cons] at h
  exact absurd h.1 (by norm_num)

/-- C6 (amended): for every cycle duration `c > 0` and every list of 1 to
60 raw angles that are pairwise distinct modulo `c`, normalization
produces a strictly increasing sequence of the same length with no
duplicates, each angle lying in `(0, c]`, and the final (largest) angle
equal to `c` exactly. -/
theorem c6_normalization_amended (c : ℚ) (hc : 0 < c) (angles : List ℚ)
    (hne : angles ≠ []) (h60 : angles.length ≤ 60)
    (hdist : angles.Pairwise (fun x y => ¬ sameAngleModC c x y)) :
    List.Chain' (· < ·) (shiftedAngles c angles) ∧
    (∀ x ∈ shiftedAngles c angles, 0 < x ∧ x ≤ c) ∧
    (shiftedAngles c angles).getLastD 0 = c ∧
    (shiftedAngles c angles).length = angles.length := by
  have hSsorted : (normalizedSorted c angles).Sorted (· ≤ ·) :=
    List.sorted_insertionSort _ _
  have hperm : (normalizedSorted c angles).Perm (angles.map (normalizeAngle c)) :=
    List.perm_insertionSort _ _
  have hmapnd : (angles.map (normalizeAngle c)).Nodup := by
    unfold List.Nodup
    rw [List.pairwise_map]
    exact hdist.imp (fun h => normalizeAngle_inj_of_not_same h)
  have hSnd : (normalizedSorted c angles).Nodup := hperm.nodup_iff.mpr hmapnd
  have hSlt : (normalizedSorted c angles).Sorted (· < ·) := hSsorted.lt_of_le hSnd
  have hSbounds : ∀ x ∈ normalizedSorted c angles, 0 < x ∧ x ≤ c := by
    intro x hx
    obtain ⟨a, _, rfl⟩ := List.mem_map.mp (hperm.mem_iff.mp hx)
    exact normalizeAngle_pos_le c hc a
  have hlenS : (normalizedSorted c angles).length = angles.length := by
    rw [hperm.length_eq, List.length_map]
  have hSne : normalizedSorted c angles ≠ [] := by
    intro h
    apply hne
    apply List.length_eq_zero.mp
    rw [← hlenS, h, List.length_nil]
  have hlast_mem : (normalizedSorted c angles).getLastD 0 ∈ normalizedSorted c angles :=
    mem_getLastD _ hSne 0
  have hlast_le : (normalizedSorted c angles).getLastD 0 ≤ c := (hSbounds _ hlast_mem).2
  have hoffge : 0 ≤ lastTeethFullTurnOffset c angles := by
    unfold lastTeethFullTurnOffset
    linarith
  refine ⟨?_, ?_, ?_, ?_⟩
  · apply List.Pairwise.chain'
    unfold shiftedAngles
    rw [List.pairwise_map]
    exact hSlt.imp (fun h => by linarith)
  · intro x hx
    unfold shiftedAngles at hx
    obtain ⟨y, hy, rfl⟩ := List.mem_map.mp hx
    have hyb := hSbounds y hy
    have hylast : y ≤ (normalizedSorted c angles).getLastD 0 :=
      sorted_le_getLastD _ hSsorted y hy 0
    constructor
    · have := hyb.1
      linarith
    · unfold lastTeethFullTurnOffset
      linarith
  · unfold shiftedAngles
    rw [getLastD_map_add _ _ hSne]
    unfold lastTeethFullTurnOffset
    ring
  · rw [length_shiftedAngles]

/-- C8: for every normalized tooth sequence (nonempty, strictly
increasing, contained in `(0, cycleDuration]`, closing at
`cycleDuration`), the derived gap list has one entry per tooth, every
gap is strictly positive, and the gap sizes sum to `cycleDuration`
exactly. -/
theorem c8_gap_closure (c : ℚ) (a : List ℚ) (h : isNormalizedSeq c a) :
    (∀ g ∈ gapsOf c a, 0 < g) ∧ (gapsOf c a).sum = c ∧
    (gapsOf c a).length = a.length := by
  obtain ⟨hne, hch, hbounds, hlast⟩ := h
  cases a with
  | nil => exact absurd rfl hne
  | cons x rest =>
    have hunf : gapsOf c (x :: rest) =
        (c - (x :: rest).getLastD 0 + x) :: List.zipWith (fun p q => p - q) rest (x :: rest) :=
      rfl
    refine ⟨?_, ?_, length_gapsOf c (x :: rest)⟩
    · intro g hg
      rw [hunf] at hg
      rcases List.mem_cons.mp hg with hg | hg
      · rw [hg, hlast]
        have hx : 0 < x := (hbounds x (by simp)).1
        linarith
      · exact diffs_pos rest x hch g hg
    · rw [hunf, List.sum_cons, diffs_sum rest x]
      ring

/-- C8 (witness): the four-tooth 90°-pitch wheel over a 360° cycle is a
normalized sequence whose gaps are all positive and sum to 360. -/
theorem c8_gap_closure_witness :
    isNormalizedSeq 360 [90, 180, 270, 360] ∧
    ((∀ g ∈ gapsOf 360 [90, 180, 270, 360], 0 < g) ∧
     (gapsOf 360 [90, 180, 270, 360]).sum = 360 ∧
     (gapsOf 360 [90, 180, 270, 360]).length = ([90, 180, 270, 360] : List ℚ).length) :=
  have h : isNormalizedSeq 360 [90, 180, 270, 360] := by
    refine ⟨by decide, ?_, by decide, by decide⟩
    simp only [List.chain'_cons, List.chain'_singleton, and_true]
    norm_num
  ⟨h, c8_gap_closure 360 [90, 180, 270, 360] h⟩

/-- C2 (counterexample): on the Thema-style 4+1 wheel (teeth 0°, 5°, 95°,
185°, 275° over a 360° cycle) the two consecutive unusual gaps are gap 0
(the earlier, ratio 5/85) and gap 1 (the later, ratio 18).  The claim
puts the earlier gap's window at gap index 0, but the code configures
gap index 0 with the LATER gap's ratio window `[18*0.66, 18*1.5]` and
the earlier gap's window at the offset index. -/
theorem c2_sync_windows_cex :
    ratioAt (gapsOf 360 (shiftedAngles 360 [0, 5, 95, 185, 275])) 0 = 5 / 85 ∧
    ratioAt (gapsOf 360 (shiftedAngles 360 [0, 5, 95, 185, 275])) 1 = 18 ∧
    selectSync 5 (gapsOf 360 (shiftedAngles 360 [0, 5, 95, 185, 275]))
      (unusualIndices (gapsOf 360 (shiftedAngles 360 [0, 5, 95, 185, 275]))) =
      .consec 0 1 ∧
    (initializeGeneralizedTrigger 360 [0, 5, 95, 185, 275] 3).gap3Windows =
      [(0, 18 * (33 / 50), 18 * (3 / 2)),
       (1, (5 / 85) * (33 / 50), (5 / 85) * (3 / 2))] ∧
    (initializeGeneralizedTrigger 360 [0, 5, 95, 185, 275] 3).gap3Windows ≠
      [(0, (5 / 85) * (33 / 50), (5 / 85) * (3 / 2)),
       (1, 18 * (33 / 50), 18 * (3 / 2))] := by
  refine ⟨by decide, by decide, by decide, by decide, by decide⟩

/-- C2 (amended): when the generalized builder finds two consecutive
unusual gaps (including wraparound adjacency), it configures exactly two
sync windows: the LATER gap of the adjacent pair (the gap the adjacency
ends at) is configured as gap index 0 and the EARLIER gap as a second
window at an offset index equal to the rotational distance between the
two gaps (which is 1 for an adjacent pair), each window being
`[ratio * 0.66, ratio * 1.5]` around that gap's ratio. -/
theorem c2_sync_windows_amended (c w : ℚ) (angles : List ℚ) (i1 i2 : ℕ)
    (h0 : angles.length ≠ 0)
    (h60 : ¬ 60 < angles.length)
    (hu : (unusualIndices (gapsOf c (shiftedAngles c angles))).isEmpty = false)
    (hsel : selectSync angles.length (gapsOf c (shiftedAngles c angles))
        (unusualIndices (gapsOf c (shiftedAngles c angles))) = .consec i1 i2) :
    (initializeGeneralizedTrigger c angles w).gap3Windows =
      [(0, ratioAt (gapsOf c (shiftedAngles c angles)) i2 * (33 / 50),
          ratioAt (gapsOf c (shiftedAngles c angles)) i2 * (3 / 2)),
       (1, ratioAt (gapsOf c (shiftedAngles c angles)) i1 * (33 / 50),
          ratioAt (gapsOf c (shiftedAngles c angles)) i1 * (3 / 2))] ∧
    i2 = (i1 + 1) % angles.length := by
  have hglen : (gapsOf c (shiftedAngles c angles)).length = angles.length := by
    rw [length_gapsOf, length_shiftedAngles]
  have hNlt : ∀ j ∈ unusualIndices (gapsOf c (shiftedAngles c angles)),
      j < angles.length := by
    intro j hj
    have := mem_unusualIndices_lt hj
    rwa [hglen] at this
  obtain ⟨hmod, hlt, hne⟩ := selectSync_consec hNlt (nodup_unusualIndices _) hsel
  have hoff1 : (if i2 < i1 then angles.length - i1 else i2 - i1) = 1 :=
    consec_offset_one hmod hlt hne
  refine ⟨?_, hmod⟩
  unfold initializeGeneralizedTrigger
  rw [if_neg h0, if_neg h60]
  dsimp only
  rw [hu]
  simp only [Bool.false_eq_true, if_false, hsel, configWindows]
  by_cases hcase : i2 < i1
  · rw [if_pos hcase] at hoff1 ⊢
    rw [hoff1]
  · rw [if_neg hcase] at hoff1 ⊢
    rw [hoff1]

/-- C7 (counterexample): on a fully symmetric wheel (4 teeth at 90°
pitch) the no-sync-gaps error path is taken — the error is reported and
the shape is marked invalid — but the tooth population has already
completed: all 4 teeth were added before gap analysis, refuting
"returns immediately without completing tooth/window population". -/
theorem c7_no_sync_cex :
    (initializeGeneralizedTrigger 360 [90, 180, 270, 360] 3).shapeDefinitionError = true ∧
    (initializeGeneralizedTrigger 360 [90, 180, 270, 360] 3).errorReported = true ∧
    (initializeGeneralizedTrigger 360 [90, 180, 270, 360] 3).toothRises.length = 4 := by
  refine ⟨by decide, by decide, by decide⟩

/-- C7 (amended): whenever gap analysis flags zero gaps as unusual (with
a valid tooth count), the builder reports the fatal configuration error,
marks the shape definition invalid, and returns with no sync window
configured, no single-gap sync ratio and no TDC position set; the tooth
events, however, have already been fully populated (one per input
angle) by that point. -/
theorem c7_no_sync_amended (c w : ℚ) (angles : List ℚ)
    (h0 : angles.length ≠ 0) (h60 : ¬ 60 < angles.length)
    (hu : (unusualIndices (gapsOf c (shiftedAngles c angles))).isEmpty = true) :
    (initializeGeneralizedTrigger c angles w).errorReported = true ∧
    (initializeGeneralizedTrigger c angles w).shapeDefinitionError = true ∧
    (initializeGeneralizedTrigger c angles w).gap3Windows = [] ∧
    (initializeGeneralizedTrigger c angles w).syncGapSingle = none ∧
    (initializeGeneralizedTrigger c angles w).tdcPosition = none ∧
    (initializeGeneralizedTrigger c angles w).toothRises =
      (shiftedAngles c angles).map (fun a => (a, w)) ∧
    (initializeGeneralizedTrigger c angles w).toothRises.length = angles.length := by
  have hstate : initializeGeneralizedTrigger c angles w =
      mkError { initState c with
        toothRises := (shiftedAngles c angles).map (fun a => (a, w)) } := by
    unfold initializeGeneralizedTrigger
    rw [if_neg h0, if_neg h60]
    dsimp only
    rw [hu]
    simp only [if_true]
  rw [hstate]
  refine ⟨rfl, rfl, rfl, rfl, rfl, rfl, ?_⟩
  simp only [mkError, initState, List.length_map, length_shiftedAngles]

/-- C2 (witness): the amended statement applied to the Thema-style wheel,
where the detection yields the consecutive pair (0, 1). -/
theorem c2_sync_windows_witness :
    ([0, 5, 95, 185, 275] : List ℚ).length ≠ 0 ∧
    ¬ 60 < ([0, 5, 95, 185, 275] : List ℚ).length ∧
    (unusualIndices (gapsOf 360 (shiftedAngles 360 [0, 5, 95, 185, 275]))).isEmpty = false ∧
    selectSync ([0, 5, 95, 185, 275] : List ℚ).length
      (gapsOf 360 (shiftedAngles 360 [0, 5, 95, 185, 275]))
      (unusualIndices (gapsOf 360 (shiftedAngles 360 [0, 5, 95, 185, 275]))) = .consec 0 1 ∧
    ((initializeGeneralizedTrigger 360 [0, 5, 95, 185, 275] 3).gap3Windows =
      [(0, ratioAt (gapsOf 360 (shiftedAngles 360 [0, 5, 95, 185, 275])) 1 * (33 / 50),
          ratioAt (gapsOf 360 (shiftedAngles 360 [0, 5, 95, 185, 275])) 1 * (3 / 2)),
       (1, ratioAt (gapsOf 360 (shiftedAngles 360 [0, 5, 95, 185, 275])) 0 * (33 / 50),
          ratioAt (gapsOf 360 (shiftedAngles 360 [0, 5, 95, 185, 275])) 0 * (3 / 2))] ∧
     1 = (0 + 1) % ([0, 5, 95, 185, 275] : List ℚ).length) :=
  ⟨by decide, by decide, by decide, by decide,
   c2_sync_windows_amended 360 3 [0, 5, 95, 185, 275] 0 1
     (by decide) (by decide) (by decide) (by decide)⟩

/-- C6 (witness): the amended statement applied to the two raw angles 10°
and 200° over a 360° cycle, which are distinct modulo the cycle. -/
theorem c6_normalization_witness :
    (0 : ℚ) < 360 ∧ ([10, 200] : List ℚ) ≠ [] ∧
    ([10, 200] : List ℚ).length ≤ 60 ∧
    List.Pairwise (fun x y => ¬ sameAngleModC 360 x y) [10, 200] ∧
    (List.Chain' (· < ·) (shiftedAngles 360 [10, 200]) ∧
     (∀ x ∈ shiftedAngles 360 [10, 200], 0 < x ∧ x ≤ 360) ∧
     (shiftedAngles 360 [10, 200]).getLastD 0 = 360 ∧
     (shiftedAngles 360 [10, 200]).length = ([10, 200] : List ℚ).length) := by
  have hp : List.Pairwise (fun x y => ¬ sameAngleModC 360 x y) [10, 200] := by
    refine List.pairwise_cons.mpr ⟨?_, by simp⟩
    intro y hy
    rw [List.mem_singleton] at hy
    subst hy
    rintro ⟨k, hk⟩
    have h3 : ((k * 360 : ℤ) : ℚ) = ((-190 : ℤ) : ℚ) := by push_cast; linarith
    have h4 : (k * 360 : ℤ) = -190 := by exact_mod_cast h3
    omega
  exact ⟨by norm_num, by decide, by decide, hp,
    c6_normalization_amended 360 (by norm_num) [10, 200] (by decide) (by decide) hp⟩

/-- C7 (witness): the amended statement applied to the fully symmetric
four-tooth wheel over a 360° cycle. -/
theorem c7_no_sync_witness :
    ([90, 180, 270, 360] : List ℚ).length ≠ 0 ∧
    ¬ 60 < ([90, 180, 270, 360] : List ℚ).length ∧
    (unusualIndices (gapsOf 360 (shiftedAngles 360 [90, 180, 270, 360]))).isEmpty = true ∧
    ((initializeGeneralizedTrigger 360 [90, 180, 270, 360] 3).errorReported = true ∧
     (initializeGeneralizedTrigger 360 [90, 180, 270, 360] 3).shapeDefinitionError = true ∧
     (initializeGeneralizedTrigger 360 [90, 180, 270, 360] 3).gap3Windows = [] ∧
     (initializeGeneralizedTrigger 360 [90, 180, 270, 360] 3).syncGapSingle = none ∧
     (initializeGeneralizedTrigger 360 [90, 180, 270, 360] 3).tdcPosition = none ∧
     (initializeGeneralizedTrigger 360 [90, 180, 270, 360] 3).toothRises =
       (shiftedAngles 360 [90, 180, 270, 360]).map (fun a => (a, (3 : ℚ))) ∧
     (initializeGeneralizedTrigger 360 [90, 180, 270, 360] 3).toothRises.length =
       ([90, 180, 270, 360] : List ℚ).length) :=
  ⟨by decide, by decide, by decide,
   c7_no_sync_amended 360 3 [90, 180, 270, 360] (by decide) (by decide) (by decide)⟩

/-- C9: tooth-count validation — a 0-tooth or 61-tooth input makes
`initializeGeneralizedTrigger` report the error and mark the shape
invalid without adding any tooth; every 60-tooth input passes the
tooth-count validation (all 60 teeth get added), and a concrete
60-tooth boundary wheel runs to completion with all 60 teeth added and
no error at all. -/
theorem c9_tooth_count_bounds :
    (∀ (c w : ℚ) (angles : List ℚ), angles.length = 0 →
      (initializeGeneralizedTrigger c angles w).errorReported = true ∧
      (initializeGeneralizedTrigger c angles w).shapeDefinitionError = true ∧
      (initializeGeneralizedTrigger c angles w).toothRises = []) ∧
    (∀ (c w : ℚ) (angles : List ℚ), angles.length = 61 →
      (initializeGeneralizedTrigger c angles w).errorReported = true ∧
      (initializeGeneralizedTrigger c angles w).shapeDefinitionError = true ∧
      (initializeGeneralizedTrigger c angles w).toothRises = []) ∧
    (∀ (c w : ℚ) (angles : List ℚ), angles.length = 60 →
      (initializeGeneralizedTrigger c angles w).toothRises.length = 60) ∧
    ((initializeGeneralizedTrigger 360 sixtyToothWheel 3).shapeDefinitionError = false ∧
     (initializeGeneralizedTrigger 360 sixtyToothWheel 3).errorReported = false ∧
     (initializeGeneralizedTrigger 360 sixtyToothWheel 3).toothRises.length = 60) := by
  refine ⟨?_, ?_, ?_, by decide, by decide, by decide⟩
  · intro c w angles hlen
    unfold initializeGeneralizedTrigger
    rw [if_pos hlen]
    exact ⟨rfl, rfl, rfl⟩
  · intro c w angles hlen
    have h1 : ¬ angles.length = 0 := by rw [hlen]; decide
    have h2 : 60 < angles.length := by rw [hlen]; decide
    unfold initializeGeneralizedTrigger
    rw [if_neg h1, if_pos h2]
    exact ⟨rfl, rfl, rfl⟩
  · intro c w angles hlen
    have h1 : ¬ angles.length = 0 := by rw [hlen]; decide
    have h2 : ¬ 60 < angles.length := by rw [hlen]; decide
    unfold initializeGeneralizedTrigger
    rw [if_neg h1, if_neg h2]
    dsimp only
    by_cases hu : (unusualIndices (gapsOf c (shiftedAngles c angles))).isEmpty = true
    · rw [if_pos hu]
      simp only [mkError, List.length_map, length_shiftedAngles, hlen]
    · rw [if_neg hu]
      simp only [List.length_map, length_shiftedAngles, hlen]

/-- C9 (witness): the universally quantified parts applied at concrete
inputs (the empty list, a 61-entry list, and the 60-tooth wheel). -/
theorem c9_tooth_count_witness :
    ([] : List ℚ).length = 0 ∧
    (List.replicate 61 (0 : ℚ)).length = 61 ∧
    sixtyToothWheel.length = 60 ∧
    ((initializeGeneralizedTrigger 360 ([] : List ℚ) 3).errorReported = true ∧
     (initializeGeneralizedTrigger 360 ([] : List ℚ) 3).shapeDefinitionError = true ∧
     (initializeGeneralizedTrigger 360 ([] : List ℚ) 3).toothRises = []) ∧
    ((initializeGeneralizedTrigger 360 (List.replicate 61 (0 : ℚ)) 3).errorReported = true ∧
     (initializeGeneralizedTrigger 360 (List.replicate 61 (0 : ℚ)) 3).shapeDefinitionError = true ∧
     (initializeGeneralizedTrigger 360 (List.replicate 61 (0 : ℚ)) 3).toothRises = []) ∧
    (initializeGeneralizedTrigger 360 sixtyToothWheel 3).toothRises.length = 60 :=
  ⟨rfl, by decide, by decide,
   c9_tooth_count_bounds.1 360 3 [] rfl,
   c9_tooth_count_bounds.2.1 360 3 (List.replicate 61 (0 : ℚ)) (by decide),
   c9_tooth_count_bounds.2.2.1 360 3 sixtyToothWheel (by decide)⟩

/-- C10: the sync tooth offset of the fixed builder `initialize4Plus1` is
the compile-time constant +5, so the negative-offset (Thema)
configuration branch is unreachable.  For every cycle duration the
builder never emits the Thema single-ratio synchronization
(`setTriggerSynchronizationGap` is never called), and every invocation
that passes validation configures exactly the positive-offset
Tipo/Tempra windows. -/
theorem c10_negative_branch_unreachable (c : ℕ) :
    (initialize4Plus1 c).syncGapSingle = none ∧
    ((initialize4Plus1 c).shapeDefinitionError = false →
      (initialize4Plus1 c).gap3Windows = fourPlus1PositiveWindows (c / 4)) := by
  unfold initialize4Plus1 fourPlus1PositiveWindows
  by_cases h1 : c % 4 ≠ 0
  · rw [if_pos h1]
    exact ⟨rfl, fun h => Bool.noConfusion h⟩
  · rw [if_neg h1]
    dsimp only
    by_cases h2 : c / 4 / 2 ≤ 5
    · rw [if_pos h2]
      exact ⟨rfl, fun h => Bool.noConfusion h⟩
    · rw [if_neg h2]
      split
      · exact ⟨rfl, fun _ => rfl⟩
      · exact ⟨rfl, fun _ => rfl⟩

/-- C10 (witness): at the 360° cycle the builder passes validation and
emits the two-window positive-offset configuration. -/
theorem c10_negative_branch_witness :
    (initialize4Plus1 360).shapeDefinitionError = false ∧
    (initialize4Plus1 360).syncGapSingle = none ∧
    (initialize4Plus1 360).gap3Windows = fourPlus1PositiveWindows (360 / 4) :=
  ⟨by decide, (c10_negative_branch_unreachable 360).1,
   (c10_negative_branch_unreachable 360).2 (by decide)⟩

/-- C1 (code bug): on the Tipo/Tempra pattern (teeth 0°, 85°, 175°, 265°,
355° over a 360° cycle) the chosen first sync gap index is 0, whose
tooth sits at 85°, so the claim requires the emitted tdcPosition to be
`360 - 85 = 275`, wrapped into `(0, 360]`.  The code instead emits
`275 + 360 = 635`: the second wrap loop
`while (tdcPosition < cycleDuration) tdcPosition += cycleDuration;`
pushes every value below the cycle duration up by one full cycle, so the
emitted tdcPosition lies outside `(0, cycleDuration]` whenever the sync
tooth is not the last tooth. -/
theorem c1_tdc_wrap_bug :
    (initializeGeneralizedTrigger 360 [0, 85, 175, 265, 355] 3).tdcPosition =
      some (275 + 360) ∧
    ¬ ((275 : ℚ) + 360 ≤ 360) ∧
    (0 : ℚ) < 275 ∧ (275 : ℚ) ≤ 360 := by
  refine ⟨by decide, by norm_num, by norm_num, by norm_num⟩

/-- C3 (counterexample): `initialize4Plus2` sets
`tdcPosition = 720 - camOffset2 = 490`, anchored to the SECOND cam tooth
at 230°; it is not computed from the first cam tooth at 50° (which would
give `720 - 50 = 670`). -/
theorem c3_tdc_anchor_cex :
    (initialize4Plus2 720).tdcPosition = some 490 ∧
    (initialize4Plus2 720).events720.getD 1 (0, .rise, .primary) =
      (50, .fall, .primary) ∧
    (initialize4Plus2 720).tdcPosition ≠ some (720 - 50) := by
  refine ⟨by decide, by decide, by decide⟩

/-- C3 (amended): in `initialize4Plus2` the TDC offset is anchored to the
second cam tooth: the emitted tdcPosition equals
`720 - camOffset2 = 720 - 230 = 490`, where the second cam tooth (fall
edge) sits at 230°. -/
theorem c3_tdc_anchor_amended :
    (initialize4Plus2 720).tdcPosition = some ((720 : ℚ) - 230) ∧
    (initialize4Plus2 720).events720.getD 7 (0, .rise, .primary) =
      (230, .fall, .primary) := by
  refine ⟨by decide, by decide⟩

/-- C4 (counterexample): the fixed 4+1 builder computes the regular pitch
as `cycleDuration / 4`, so the 90° pitch of the claim forces a 360°
cycle, where the emitted tdcPosition is `360 - 90 + 5 = 275`, not 635;
with a 720° cycle the pitch would be 180°, and the tdcPosition 545 —
the claimed value 635 is emitted for no cycle duration consistent with
the builder. -/
theorem c4_tipo_tdc_cex :
    (initialize4Plus1 360).tdcPosition = some 275 ∧ (275 : ℚ) ≠ 635 ∧
    (initialize4Plus1 720).tdcPosition = some 545 ∧ (545 : ℚ) ≠ 635 := by
  refine ⟨by decide, by decide, by decide, by decide⟩

/-- C4 (amended): for the fixed 4+1 builder at the 360° cycle implied by
the 90° regular pitch, the teeth sit at 90°, 180°, 185°, 270°, 360°
(a 5° short gap followed by an 85° long gap), a two-gap synchronization
is configured (primary window around 85/5 = 17, secondary confirmation
window around 5/90), and the emitted tdcPosition equals
`360 - 90 + 5 = 275`. -/
theorem c4_tipo_tdc_amended :
    (initialize4Plus1 360).shapeDefinitionError = false ∧
    (initialize4Plus1 360).toothRises = [(90, 3), (180, 3), (185, 3), (270, 3), (360, 3)] ∧
    (initialize4Plus1 360).gap3Windows =
      [(0, (85 : ℚ) / 5 * (33 / 50), (85 : ℚ) / 5 * (3 / 2)),
       (1, (5 : ℚ) / 90 * (33 / 50), (5 : ℚ) / 90 * (3 / 2))] ∧
    (initialize4Plus1 360).tdcPosition = some (360 - 90 + 5) := by
  refine ⟨by decide, by decide, by decide, by decide⟩

/-- C5 (counterexample): the only builder that accepts a -5° sync tooth
offset is `initialize4Plus1Generalized` (in the fixed builder the offset
is the constant +5, cf. C10); with offset -5 over the 360° cycle the
generalized builder finds the two consecutive unusual gaps and
configures a TWO-GAP window synchronization — it never calls the
single-ratio `setTriggerSynchronizationGap`, so no "primary single
ratio sync of 18.0" is configured. -/
theorem c5_thema_single_ratio_cex :
    (initialize4Plus1Generalized 360 (-5)).syncGapSingle = none ∧
    (initialize4Plus1Generalized 360 (-5)).syncGapSingle ≠ some ((90 : ℚ) / 5) := by
  refine ⟨by decide, by decide⟩

/-- C5 (amended): for the 4+1 wheel with sync tooth offset -5° (Thema)
over the 360° cycle, the generalized builder configures a two-gap
synchronization: the window at gap index 0 is
`[18 * 0.66, 18 * 1.5]` around the ratio 90/5 = 18, and the secondary
confirmation window at gap index 1 is `[(5/85) * 0.66, (5/85) * 1.5]`
around the ratio 5/85; no single-ratio synchronization is emitted. -/
theorem c5_thema_single_ratio_amended :
    (initialize4Plus1Generalized 360 (-5)).gap3Windows =
      [(0, (90 : ℚ) / 5 * (33 / 50), (90 : ℚ) / 5 * (3 / 2)),
       (1, (5 : ℚ) / 85 * (33 / 50), (5 : ℚ) / 85 * (3 / 2))] ∧
    (initialize4Plus1Generalized 360 (-5)).syncGapSingle = none := by
  refine ⟨by decide, by decide⟩

end RusefiTrigger
